import Mathlib

/-!
Verification of the Double-DQN training agent (agent.py).

The development shallowly embeds the agent's algorithmic core:

* the epsilon-greedy policy selector with linear epsilon decay
  (Agent.select_action, lines 59-76);
* the Double-Q batch optimization step (Agent.batch_train, lines 79-128),
  including the exact tensor indexing the code performs
  (column fancy-indexing, per-row argmax, broadcast addition, MSE);
* the constructor wiring of the primary/target estimator pair
  (Agent.__init__, lines 41-44);
* the episode/step training loop (Agent.train, lines 131-188) as a
  fuel-indexed state machine over an abstract environment trace.

Rewards and Q-values are modelled as rationals; network parameters are an
abstract type P with evaluation P -> S -> List Q giving per-action values.
Randomness (the uniform draw of random.random, the uniform action of
np.random.choice and the replay-memory sample) is passed in explicitly.
-/

namespace DoubleDQN

/-! ### Per-row argmax (torch.argmax semantics: first index of the maximum) -/

/-- Maximum value together with the index of its first occurrence.
For the empty list the result is the junk value (0, 0); all uses are on
nonempty rows (one value per action, num_actions > 0). -/
def argmaxVal : List ℚ → ℚ × ℕ
  | [] => (0, 0)
  | [x] => (x, 0)
  | x :: y :: ys =>
    let p := argmaxVal (y :: ys)
    if x < p.1 then (p.1, p.2 + 1) else (x, 0)

/-- Index of the first occurrence of the maximum of a row
(torch.argmax tie-breaking: lowest index). -/
def argmaxRow (l : List ℚ) : ℕ := (argmaxVal l).2

/-! ### Tensor operations used by Agent.batch_train -/

/-- numpy/torch column fancy-indexing M[:, idxs]: for a B x A matrix and a
length-B index vector it yields the B x B matrix whose (i, j) entry is
M[i][idxs[j]].  This is what lines 106 and 113 of agent.py compute. -/
def colIndex (M : List (List ℚ)) (idxs : List ℕ) : List (List ℚ) :=
  M.map (fun row => idxs.map (fun a => row.getD a 0))

/-- torch.argmax(M, axis=1): per-row first-max index. -/
def argmaxAxis1 (M : List (List ℚ)) : List ℕ := M.map argmaxRow

/-- One replay-memory transition record. -/
structure Transition (S : Type) where
  state : S
  action : ℕ
  reward : ℚ
  nextState : S
  terminal : Bool
deriving DecidableEq

/-- Line 106: Q_t_values = target_network(batch_states)[:, batch_actions].
Because of the fancy indexing this is a B x B matrix, not a length-B
vector. -/
def Q_t_values {S : Type} (tnet : S → List ℚ) (batch : List (Transition S)) :
    List (List ℚ) :=
  colIndex ((batch.map Transition.state).map tnet) (batch.map Transition.action)

/-- Line 113: next_Q_t_values_max =
next_Q_t_target_values[:, torch.argmax(next_Q_t_primary_values, axis=1)],
again a B x B matrix by fancy indexing. -/
def next_Q_t_values_max {S : Type} (pnet tnet : S → List ℚ)
    (batch : List (Transition S)) : List (List ℚ) :=
  colIndex ((batch.map Transition.nextState).map tnet)
    (argmaxAxis1 ((batch.map Transition.nextState).map pnet))

/-- Line 116: expected_Q_values = batch_rewards + discount * next_Q_t_values_max.
batch_rewards has shape (B,) and the matrix shape (B, B), so broadcasting
gives entry (i, j) = rewards[j] + discount * M[i][j].  No terminal masking
is applied (the masked variants, lines 108-109, are commented out). -/
def expected_Q_values {S : Type} (discount : ℚ) (pnet tnet : S → List ℚ)
    (batch : List (Transition S)) : List (List ℚ) :=
  (next_Q_t_values_max pnet tnet batch).map
    (fun row => List.zipWith (fun r q => r + discount * q)
      (batch.map Transition.reward) row)

/-- Modelled from the spec: the length-B per-sample selection the spec
describes for step 2 of the Double-Q batch update, namely the target
estimator's value for states[i] at the actually taken action actions[i]
(one scalar per sample).  Kept for comparison with Q_t_values. -/
def gatherOwnAction {S : Type} (tnet : S → List ℚ)
    (batch : List (Transition S)) : List ℚ :=
  batch.map (fun t => (tnet t.state).getD t.action 0)

/-- Modelled from the spec: the length-B Double-Q bootstrap target the spec
describes, y[i] = rewards[i] + discount * Q_target(next_states[i])[best_action[i]]
with best_action[i] the primary network's per-sample argmax.  Kept for
comparison with expected_Q_values. -/
def doubleQTarget {S : Type} (discount : ℚ) (pnet tnet : S → List ℚ)
    (batch : List (Transition S)) : List ℚ :=
  batch.map (fun t =>
    t.reward + discount * (tnet t.nextState).getD (argmaxRow (pnet t.nextState)) 0)

/-- torch.nn.MSELoss between two same-shape matrices: mean of squared
entrywise differences. -/
def mseLoss (X Y : List (List ℚ)) : ℚ :=
  let ds := (List.zipWith (fun rx ry => List.zipWith (fun a b => (a - b) ^ 2) rx ry) X Y).flatten
  ds.sum / (ds.length : ℚ)

/-! ### Epsilon decay and action selection (Agent.select_action) -/

/-- Line 69 of agent.py:
epsilon = eps_start + (eps_end - eps_start) * (steps / eps_decay).
Note there is no clamping: past eps_decay steps the value keeps falling
below eps_end. -/
def epsilonCode (epsStart epsEnd epsDecay : ℚ) (steps : ℕ) : ℚ :=
  epsStart + (epsEnd - epsStart) * ((steps : ℚ) / epsDecay)

/-- Modelled from the spec: the clamped linear interpolation
eps_start + (eps_end - eps_start) * min(steps / eps_decay, 1).
Kept for comparison with epsilonCode. -/
def epsilonSpec (epsStart epsEnd epsDecay : ℚ) (steps : ℕ) : ℚ :=
  epsStart + (epsEnd - epsStart) * min ((steps : ℚ) / epsDecay) 1

/-- Agent.select_action, lines 68-76.  The uniform draw r of
random.random() and the uniform random action of np.random.choice are
passed in explicitly; exploitation returns the primary network's argmax
for the state. -/
def select_action {S : Type} (epsStart epsEnd epsDecay : ℚ) (pnet : S → List ℚ)
    (r : ℚ) (randomAct : ℕ) (steps : ℕ) (state : S) : ℕ :=
  if r < epsilonCode epsStart epsEnd epsDecay steps then randomAct
  else argmaxRow (pnet state)

/-! ### Agent.batch_train -/

/-- The agent state batch_train touches: the replay memory (a list of
stored transitions; the experience_replay module is not part of the
sources, its count is modelled from the spec as the number of stored
transitions), the configured batch size, and the two parameter sets. -/
structure AgentSt (P S : Type) where
  memory : List (Transition S)
  batchSize : ℕ
  primaryP : P
  targetP : P
deriving DecidableEq

/-- Agent.batch_train, lines 87-128.  net gives each parameter set's
per-action values; g abstracts the RMSprop gradient step on the primary
parameters from the computed loss; sample is the batch drawn by
memory.selectBatch.  If fewer transitions are stored than the batch size
the call returns immediately: no loss (none) and an unchanged state. -/
def batchTrain {P S : Type} (net : P → S → List ℚ) (discount : ℚ)
    (g : P → ℚ → P) (sample : List (Transition S)) (ag : AgentSt P S) :
    AgentSt P S × Option ℚ :=
  if ag.memory.length < ag.batchSize then (ag, none)
  else
    let loss := mseLoss (Q_t_values (net ag.targetP) sample)
      (expected_Q_values discount (net ag.primaryP) (net ag.targetP) sample)
    ({ ag with primaryP := g ag.primaryP loss }, some loss)

/-! ### Agent.__init__ estimator wiring (lines 41-44) -/

/-- The primary/target estimator pair as the constructor leaves it. -/
structure EstimatorPair (P : Type) where
  primary : P
  target : P
  targetEvalMode : Bool
deriving DecidableEq

/-- Agent.__init__, lines 41-44: both networks are freshly initialised
(pInit, tInit), then the target receives load_state_dict of the primary's
state_dict (overwriting tInit) and is put in eval mode. -/
def mkEstimatorPair {P : Type} (pInit _tInit : P) : EstimatorPair P :=
  { primary := pInit, target := pInit, targetEvalMode := true }

/-! ### Agent.train (lines 131-188): the episode/step loop

The environment is abstracted as a trace tr : step index -> (reward, done)
giving, for each global step s (counted from 1, as the code increments
steps before acting), the reward and terminal flag Game.step returns at
that step.  batch_train's effect on the primary parameters is abstracted
as a function g; the state records the events the claims are about
(stores, target synchronizations, batch_train calls, recorded rewards). -/

/-- Training-loop configuration (the hyperparameters lines 25-27 set). -/
structure Cfg where
  targetUpdate : ℕ
  numSteps : ℕ
  maxEpisodes : ℕ
deriving DecidableEq

/-- Mutable state of Agent.train, plus event logs.  stored logs each
storeExperience call as (step, reward, terminal flag stored); syncSteps
logs the steps at which the target network is refreshed; batchTrainSteps
logs the steps at which batch_train is invoked. -/
structure RunState (P : Type) where
  steps : ℕ
  totalReward : ℚ
  recordRewards : List ℚ
  stored : List (ℕ × ℚ × Bool)
  syncSteps : List ℕ
  batchTrainSteps : List ℕ
  primaryP : P
  targetP : P
deriving DecidableEq

/-- Outcome of one iteration of the inner for-loop of Agent.train. -/
inductive StepOutcome where
  | next
  | epDone
  | runDone
deriving DecidableEq

/-- One iteration of the inner loop (lines 139-183): increment steps, act,
accumulate the reward; if done, run batch_train, record the episode
reward, reset the accumulator and break; otherwise store the transition,
then synchronize the target network when steps is a multiple of
target_update, and break out of the whole run when steps equals
num_steps. -/
def stepBody {P : Type} (tr : ℕ → ℚ × Bool) (cfg : Cfg) (g : P → P)
    (st : RunState P) : RunState P × StepOutcome :=
  let s := st.steps + 1
  let r := (tr s).1
  let d := (tr s).2
  if d then
    ({ st with
        steps := s
        primaryP := g st.primaryP
        recordRewards := st.recordRewards ++ [st.totalReward + r]
        batchTrainSteps := st.batchTrainSteps ++ [s]
        totalReward := 0 }, .epDone)
  else
    let st1 : RunState P :=
      { st with
          steps := s
          totalReward := st.totalReward + r
          stored := st.stored ++ [(s, r, d)] }
    let st2 : RunState P :=
      if s % cfg.targetUpdate = 0 then
        { st1 with syncSteps := st1.syncSteps ++ [s], targetP := st1.primaryP }
      else st1
    if s = cfg.numSteps then (st2, .runDone) else (st2, .next)

/-- The inner for-loop of one episode, driven by fuel.  Returns the state
and whether the whole run ended (steps reached num_steps, or the fuel ran
out).  The caller passes fuel num_steps - steps, which bounds the
remaining iterations. -/
def runEpisode {P : Type} (tr : ℕ → ℚ × Bool) (cfg : Cfg) (g : P → P) :
    RunState P → ℕ → RunState P × Bool
  | st, 0 => (st, true)
  | st, fuel + 1 =>
    let p := stepBody tr cfg g st
    match p.2 with
    | .epDone => (p.1, false)
    | .runDone => (p.1, true)
    | .next => runEpisode tr cfg g p.1 fuel

/-- The outer for-loop over episodes (lines 135-186): run one episode; if
the run ended mid-episode stop, otherwise stop when steps reached
num_steps, otherwise continue with the next episode. -/
def runEpisodes {P : Type} (tr : ℕ → ℚ × Bool) (cfg : Cfg) (g : P → P) :
    RunState P → ℕ → RunState P
  | st, 0 => st
  | st, k + 1 =>
    let q := runEpisode tr cfg g st (cfg.numSteps - st.steps)
    if q.2 then q.1
    else if q.1.steps = cfg.numSteps then q.1
    else runEpisodes tr cfg g q.1 k

/-- The state Agent.train starts from: zero counters, empty logs, and the
constructor's estimator wiring (target initialised to a copy of the
primary, C9). -/
def initState {P : Type} (p0 : P) : RunState P :=
  { steps := 0, totalReward := 0, recordRewards := [], stored := []
    syncSteps := [], batchTrainSteps := [], primaryP := p0, targetP := p0 }

/-- Agent.train: run up to max_episodes episodes. -/
def trainRun {P : Type} (tr : ℕ → ℚ × Bool) (cfg : Cfg) (g : P → P)
    (p0 : P) : RunState P :=
  runEpisodes tr cfg g (initState p0) cfg.maxEpisodes

/-- Sum of the rewards of the n steps following step a:
(tr (a+1)).1 + ... + (tr (a+n)).1. -/
def epSumFrom (tr : ℕ → ℚ × Bool) (a : ℕ) : ℕ → ℚ
  | 0 => 0
  | n + 1 => (tr (a + 1)).1 + epSumFrom tr (a + 1) n

/-! ### Projection lemmas for one loop iteration -/

theorem stepBody_steps {P : Type} (tr : ℕ → ℚ × Bool) (cfg : Cfg) (g : P → P)
    (st : RunState P) : (stepBody tr cfg g st).1.steps = st.steps + 1 := by
  unfold stepBody
  cases h : (tr (st.steps + 1)).2 <;> simp [h] <;> split <;> split <;> simp

theorem stepBody_stored {P : Type} (tr : ℕ → ℚ × Bool) (cfg : Cfg) (g : P → P)
    (st : RunState P) :
    (stepBody tr cfg g st).1.stored = st.stored ++
      (if (tr (st.steps + 1)).2 = false then
        [(st.steps + 1, (tr (st.steps + 1)).1, (tr (st.steps + 1)).2)] else []) := by
  unfold stepBody
  cases h : (tr (st.steps + 1)).2 <;> simp [h] <;> split <;> split <;> simp

theorem stepBody_sync {P : Type} (tr : ℕ → ℚ × Bool) (cfg : Cfg) (g : P → P)
    (st : RunState P) :
    (stepBody tr cfg g st).1.syncSteps = st.syncSteps ++
      (if (tr (st.steps + 1)).2 = false ∧ (st.steps + 1) % cfg.targetUpdate = 0
        then [st.steps + 1] else []) := by
  unfold stepBody
  cases h : (tr (st.steps + 1)).2 <;> simp [h] <;> (try split) <;> (try split) <;>
    simp_all

theorem stepBody_targetP {P : Type} (tr : ℕ → ℚ × Bool) (cfg : Cfg) (g : P → P)
    (st : RunState P) :
    (stepBody tr cfg g st).1.targetP =
      if (tr (st.steps + 1)).2 = false ∧ (st.steps + 1) % cfg.targetUpdate = 0
        then st.primaryP else st.targetP := by
  unfold stepBody
  cases h : (tr (st.steps + 1)).2 <;> simp [h] <;> (try split) <;> (try split) <;>
    simp_all

theorem stepBody_record {P : Type} (tr : ℕ → ℚ × Bool) (cfg : Cfg) (g : P → P)
    (st : RunState P) :
    (stepBody tr cfg g st).1.recordRewards = st.recordRewards ++
      (if (tr (st.steps + 1)).2 = true then [st.totalReward + (tr (st.steps + 1)).1]
        else []) := by
  unfold stepBody
  cases h : (tr (st.steps + 1)).2 <;> simp [h] <;> split <;> split <;> simp

theorem stepBody_bt {P : Type} (tr : ℕ → ℚ × Bool) (cfg : Cfg) (g : P → P)
    (st : RunState P) :
    (stepBody tr cfg g st).1.batchTrainSteps = st.batchTrainSteps ++
      (if (tr (st.steps + 1)).2 = true then [st.steps + 1] else []) := by
  unfold stepBody
  cases h : (tr (st.steps + 1)).2 <;> simp [h] <;> split <;> split <;> simp

theorem stepBody_total {P : Type} (tr : ℕ → ℚ × Bool) (cfg : Cfg) (g : P → P)
    (st : RunState P) :
    (stepBody tr cfg g st).1.totalReward =
      if (tr (st.steps + 1)).2 = true then 0
        else st.totalReward + (tr (st.steps + 1)).1 := by
  unfold stepBody
  cases h : (tr (st.steps + 1)).2 <;> simp [h] <;> split <;> split <;> simp

theorem stepBody_outcome {P : Type} (tr : ℕ → ℚ × Bool) (cfg : Cfg) (g : P → P)
    (st : RunState P) :
    (stepBody tr cfg g st).2 =
      if (tr (st.steps + 1)).2 = true then StepOutcome.epDone
        else if st.steps + 1 = cfg.numSteps then StepOutcome.runDone
        else StepOutcome.next := by
  unfold stepBody
  cases h : (tr (st.steps + 1)).2 <;> simp [h] <;> split <;> split <;> simp_all

/-! ### Invariant lemmas for the episode loop -/

theorem runEpisode_stored_affix {P : Type} (tr : ℕ → ℚ × Bool) (cfg : Cfg)
    (g : P → P) (fuel : ℕ) : ∀ st : RunState P,
    ∃ t, (runEpisode tr cfg g st fuel).1.stored = st.stored ++ t ∧
      ∀ e ∈ t, e.2.2 = false := by
  induction fuel with
  | zero =>
    intro st
    exact ⟨[], by simp [runEpisode], by simp⟩
  | succ n ih =>
    intro st
    cases ho : (stepBody tr cfg g st).2 with
    | next =>
      obtain ⟨t, ht, hall⟩ := ih (stepBody tr cfg g st).1
      refine ⟨(if (tr (st.steps + 1)).2 = false then
        [(st.steps + 1, (tr (st.steps + 1)).1, (tr (st.steps + 1)).2)] else []) ++ t,
        ?_, ?_⟩
      · simp only [runEpisode, ho, ht, stepBody_stored, List.append_assoc]
      · intro e he
        rcases List.mem_append.1 he with h | h
        · rcases h2 : (tr (st.steps + 1)).2 <;> simp [h2] at h
          subst h; simpa using h2
        · exact hall e h
    | epDone =>
      refine ⟨(if (tr (st.steps + 1)).2 = false then
        [(st.steps + 1, (tr (st.steps + 1)).1, (tr (st.steps + 1)).2)] else []),
        ?_, ?_⟩
      · simp only [runEpisode, ho, stepBody_stored]
      · intro e he
        rcases h2 : (tr (st.steps + 1)).2 <;> simp [h2] at he
        subst he; simpa using h2
    | runDone =>
      refine ⟨(if (tr (st.steps + 1)).2 = false then
        [(st.steps + 1, (tr (st.steps + 1)).1, (tr (st.steps + 1)).2)] else []),
        ?_, ?_⟩
      · simp only [runEpisode, ho, stepBody_stored]
      · intro e he
        rcases h2 : (tr (st.steps + 1)).2 <;> simp [h2] at he
        subst he; simpa using h2

theorem runEpisodes_stored_affix {P : Type} (tr : ℕ → ℚ × Bool) (cfg : Cfg)
    (g : P → P) (k : ℕ) : ∀ st : RunState P,
    ∃ t, (runEpisodes tr cfg g st k).stored = st.stored ++ t ∧
      ∀ e ∈ t, e.2.2 = false := by
  induction k with
  | zero =>
    intro st
    exact ⟨[], by simp [runEpisodes], by simp⟩
  | succ n ih =>
    intro st
    obtain ⟨t, ht, hall⟩ :=
      runEpisode_stored_affix tr cfg g (cfg.numSteps - st.steps) st
    by_cases hq : (runEpisode tr cfg g st (cfg.numSteps - st.steps)).2 = true
    · exact ⟨t, by simp [runEpisodes, hq, ht], hall⟩
    · by_cases hs :
        (runEpisode tr cfg g st (cfg.numSteps - st.steps)).1.steps = cfg.numSteps
      · exact ⟨t, by simp [runEpisodes, hq, hs, ht], hall⟩
      · obtain ⟨t2, ht2, hall2⟩ :=
          ih (runEpisode tr cfg g st (cfg.numSteps - st.steps)).1
        refine ⟨t ++ t2, ?_, ?_⟩
        · simp only [runEpisodes, hq, hs, if_false, Bool.false_eq_true, ht2, ht,
            List.append_assoc]
        · intro e he
          rcases List.mem_append.1 he with h | h
          · exact hall e h
          · exact hall2 e h

theorem outcome_epDone_iff {P : Type} (tr : ℕ → ℚ × Bool) (cfg : Cfg) (g : P → P)
    (st : RunState P) :
    (stepBody tr cfg g st).2 = StepOutcome.epDone ↔ (tr (st.steps + 1)).2 = true := by
  rw [stepBody_outcome]
  cases h : (tr (st.steps + 1)).2 <;> simp [h] <;> split <;> simp_all

theorem outcome_runDone_iff {P : Type} (tr : ℕ → ℚ × Bool) (cfg : Cfg) (g : P → P)
    (st : RunState P) :
    (stepBody tr cfg g st).2 = StepOutcome.runDone ↔
      ((tr (st.steps + 1)).2 = false ∧ st.steps + 1 = cfg.numSteps) := by
  rw [stepBody_outcome]
  cases h : (tr (st.steps + 1)).2 <;> simp [h] <;> split <;> simp_all

theorem outcome_next_iff {P : Type} (tr : ℕ → ℚ × Bool) (cfg : Cfg) (g : P → P)
    (st : RunState P) :
    (stepBody tr cfg g st).2 = StepOutcome.next ↔
      ((tr (st.steps + 1)).2 = false ∧ st.steps + 1 ≠ cfg.numSteps) := by
  rw [stepBody_outcome]
  cases h : (tr (st.steps + 1)).2 <;> simp [h] <;> split <;> simp_all

theorem runEpisode_steps_le {P : Type} (tr : ℕ → ℚ × Bool) (cfg : Cfg)
    (g : P → P) (fuel : ℕ) : ∀ st : RunState P,
    (runEpisode tr cfg g st fuel).1.steps ≤ st.steps + fuel := by
  induction fuel with
  | zero => intro st; simp [runEpisode]
  | succ n ih =>
    intro st
    cases ho : (stepBody tr cfg g st).2 with
    | next =>
      have := ih (stepBody tr cfg g st).1
      rw [stepBody_steps] at this
      simp only [runEpisode, ho]
      omega
    | epDone =>
      simp only [runEpisode, ho, stepBody_steps]
      omega
    | runDone =>
      simp only [runEpisode, ho, stepBody_steps]
      omega

theorem runEpisode_record_len {P : Type} (tr : ℕ → ℚ × Bool) (cfg : Cfg)
    (g : P → P) (fuel : ℕ) : ∀ st : RunState P,
    (runEpisode tr cfg g st fuel).1.recordRewards.length ≤
      st.recordRewards.length + 1 := by
  induction fuel with
  | zero => intro st; simp [runEpisode]
  | succ n ih =>
    intro st
    cases ho : (stepBody tr cfg g st).2 with
    | next =>
      have hd : (tr (st.steps + 1)).2 = false := ((outcome_next_iff tr cfg g st).1 ho).1
      have := ih (stepBody tr cfg g st).1
      rw [stepBody_record, hd] at this
      simp only [runEpisode, ho]
      simpa using this
    | epDone =>
      have hd : (tr (st.steps + 1)).2 = true := (outcome_epDone_iff tr cfg g st).1 ho
      simp only [runEpisode, ho, stepBody_record, hd]
      simp
    | runDone =>
      have hd : (tr (st.steps + 1)).2 = false :=
        ((outcome_runDone_iff tr cfg g st).1 ho).1
      simp only [runEpisode, ho, stepBody_record, hd]
      simp

theorem runEpisode_true_frozen {P : Type} (tr : ℕ → ℚ × Bool) (cfg : Cfg)
    (g : P → P) (fuel : ℕ) : ∀ st st' : RunState P,
    runEpisode tr cfg g st fuel = (st', true) →
      st'.recordRewards = st.recordRewards ∧
      st'.batchTrainSteps = st.batchTrainSteps := by
  induction fuel with
  | zero =>
    intro st st' h
    simp only [runEpisode] at h
    cases h
    exact ⟨rfl, rfl⟩
  | succ n ih =>
    intro st st' h
    cases ho : (stepBody tr cfg g st).2 with
    | next =>
      have hd : (tr (st.steps + 1)).2 = false := ((outcome_next_iff tr cfg g st).1 ho).1
      simp only [runEpisode, ho] at h
      have := ih (stepBody tr cfg g st).1 st' h
      rw [stepBody_record, stepBody_bt, hd] at this
      simpa using this
    | epDone =>
      simp only [runEpisode, ho] at h
      cases h
    | runDone =>
      have hd : (tr (st.steps + 1)).2 = false :=
        ((outcome_runDone_iff tr cfg g st).1 ho).1
      simp only [runEpisode, ho] at h
      cases h
      rw [stepBody_record, stepBody_bt, hd]
      simp

theorem runEpisode_sync_affix {P : Type} (tr : ℕ → ℚ × Bool) (cfg : Cfg)
    (g : P → P) (fuel : ℕ) : ∀ st : RunState P,
    ∃ t, (runEpisode tr cfg g st fuel).1.syncSteps = st.syncSteps ++ t ∧
      ∀ s ∈ t, s % cfg.targetUpdate = 0 ∧ (tr s).2 = false := by
  induction fuel with
  | zero =>
    intro st
    exact ⟨[], by simp [runEpisode], by simp⟩
  | succ n ih =>
    intro st
    have hmem : ∀ s ∈ (if (tr (st.steps + 1)).2 = false ∧
        (st.steps + 1) % cfg.targetUpdate = 0 then [st.steps + 1] else []),
        s % cfg.targetUpdate = 0 ∧ (tr s).2 = false := by
      by_cases hc : (tr (st.steps + 1)).2 = false ∧
        (st.steps + 1) % cfg.targetUpdate = 0
      · intro s hs
        simp [hc] at hs
        subst hs
        exact ⟨hc.2, hc.1⟩
      · intro s hs
        simp [hc] at hs
    cases ho : (stepBody tr cfg g st).2 with
    | next =>
      obtain ⟨t, ht, hall⟩ := ih (stepBody tr cfg g st).1
      refine ⟨(if (tr (st.steps + 1)).2 = false ∧
        (st.steps + 1) % cfg.targetUpdate = 0 then [st.steps + 1] else []) ++ t,
        ?_, ?_⟩
      · simp only [runEpisode, ho, ht, stepBody_sync, List.append_assoc]
      · intro s hs
        rcases List.mem_append.1 hs with h | h
        · exact hmem s h
        · exact hall s h
    | epDone =>
      exact ⟨_, by simp only [runEpisode, ho, stepBody_sync], hmem⟩
    | runDone =>
      exact ⟨_, by simp only [runEpisode, ho, stepBody_sync], hmem⟩

theorem runEpisodes_sync_affix {P : Type} (tr : ℕ → ℚ × Bool) (cfg : Cfg)
    (g : P → P) (k : ℕ) : ∀ st : RunState P,
    ∃ t, (runEpisodes tr cfg g st k).syncSteps = st.syncSteps ++ t ∧
      ∀ s ∈ t, s % cfg.targetUpdate = 0 ∧ (tr s).2 = false := by
  induction k with
  | zero =>
    intro st
    exact ⟨[], by simp [runEpisodes], by simp⟩
  | succ n ih =>
    intro st
    obtain ⟨t, ht, hall⟩ :=
      runEpisode_sync_affix tr cfg g (cfg.numSteps - st.steps) st
    by_cases hq : (runEpisode tr cfg g st (cfg.numSteps - st.steps)).2 = true
    · exact ⟨t, by simp [runEpisodes, hq, ht], hall⟩
    · by_cases hs :
        (runEpisode tr cfg g st (cfg.numSteps - st.steps)).1.steps = cfg.numSteps
      · exact ⟨t, by simp [runEpisodes, hq, hs, ht], hall⟩
      · obtain ⟨t2, ht2, hall2⟩ :=
          ih (runEpisode tr cfg g st (cfg.numSteps - st.steps)).1
        refine ⟨t ++ t2, ?_, ?_⟩
        · simp only [runEpisodes, hq, hs, if_false, Bool.false_eq_true, ht2, ht,
            List.append_assoc]
        · intro s hs2
          rcases List.mem_append.1 hs2 with h | h
          · exact hall s h
          · exact hall2 s h

theorem runEpisode_rec_bt {P : Type} (tr : ℕ → ℚ × Bool) (cfg : Cfg)
    (g : P → P) (fuel : ℕ) : ∀ st : RunState P,
    ∃ t1 t2, (runEpisode tr cfg g st fuel).1.recordRewards =
        st.recordRewards ++ t1 ∧
      (runEpisode tr cfg g st fuel).1.batchTrainSteps = st.batchTrainSteps ++ t2 ∧
      t1.length = t2.length ∧ ∀ s ∈ t2, (tr s).2 = true := by
  induction fuel with
  | zero =>
    intro st
    exact ⟨[], [], by simp [runEpisode], by simp [runEpisode], rfl, by simp⟩
  | succ n ih =>
    intro st
    cases ho : (stepBody tr cfg g st).2 with
    | next =>
      have hd : (tr (st.steps + 1)).2 = false := ((outcome_next_iff tr cfg g st).1 ho).1
      obtain ⟨t1, t2, h1, h2, hlen, hall⟩ := ih (stepBody tr cfg g st).1
      rw [stepBody_record, hd] at h1
      rw [stepBody_bt, hd] at h2
      refine ⟨t1, t2, ?_, ?_, hlen, hall⟩
      · simp only [runEpisode, ho]
        simpa using h1
      · simp only [runEpisode, ho]
        simpa using h2
    | epDone =>
      have hd : (tr (st.steps + 1)).2 = true := (outcome_epDone_iff tr cfg g st).1 ho
      refine ⟨[st.totalReward + (tr (st.steps + 1)).1], [st.steps + 1], ?_, ?_, rfl, ?_⟩
      · simp only [runEpisode, ho, stepBody_record, hd]
        simp
      · simp only [runEpisode, ho, stepBody_bt, hd]
        simp
      · intro s hs
        simp at hs
        subst hs
        exact hd
    | runDone =>
      have hd : (tr (st.steps + 1)).2 = false :=
        ((outcome_runDone_iff tr cfg g st).1 ho).1
      refine ⟨[], [], ?_, ?_, rfl, by simp⟩
      · simp only [runEpisode, ho, stepBody_record, hd]
        simp
      · simp only [runEpisode, ho, stepBody_bt, hd]
        simp

theorem runEpisodes_rec_bt {P : Type} (tr : ℕ → ℚ × Bool) (cfg : Cfg)
    (g : P → P) (k : ℕ) : ∀ st : RunState P,
    ∃ t1 t2, (runEpisodes tr cfg g st k).recordRewards = st.recordRewards ++ t1 ∧
      (runEpisodes tr cfg g st k).batchTrainSteps = st.batchTrainSteps ++ t2 ∧
      t1.length = t2.length ∧ ∀ s ∈ t2, (tr s).2 = true := by
  induction k with
  | zero =>
    intro st
    exact ⟨[], [], by simp [runEpisodes], by simp [runEpisodes], rfl, by simp⟩
  | succ n ih =>
    intro st
    obtain ⟨t1, t2, h1, h2, hlen, hall⟩ :=
      runEpisode_rec_bt tr cfg g (cfg.numSteps - st.steps) st
    by_cases hq : (runEpisode tr cfg g st (cfg.numSteps - st.steps)).2 = true
    · exact ⟨t1, t2, by simp [runEpisodes, hq, h1], by simp [runEpisodes, hq, h2],
        hlen, hall⟩
    · by_cases hs :
        (runEpisode tr cfg g st (cfg.numSteps - st.steps)).1.steps = cfg.numSteps
      · exact ⟨t1, t2, by simp [runEpisodes, hq, hs, h1],
          by simp [runEpisodes, hq, hs, h2], hlen, hall⟩
      · obtain ⟨u1, u2, g1, g2, glen, gall⟩ :=
          ih (runEpisode tr cfg g st (cfg.numSteps - st.steps)).1
        refine ⟨t1 ++ u1, t2 ++ u2, ?_, ?_, ?_, ?_⟩
        · simp only [runEpisodes, hq, hs, if_false, Bool.false_eq_true, g1, h1,
            List.append_assoc]
        · simp only [runEpisodes, hq, hs, if_false, Bool.false_eq_true, g2, h2,
            List.append_assoc]
        · simp [hlen, glen]
        · intro s hs2
          rcases List.mem_append.1 hs2 with h | h
          · exact hall s h
          · exact gall s h

theorem runEpisodes_record_len {P : Type} (tr : ℕ → ℚ × Bool) (cfg : Cfg)
    (g : P → P) (k : ℕ) : ∀ st : RunState P,
    (runEpisodes tr cfg g st k).recordRewards.length ≤
      st.recordRewards.length + k := by
  induction k with
  | zero => intro st; simp [runEpisodes]
  | succ n ih =>
    intro st
    have h1 := runEpisode_record_len tr cfg g (cfg.numSteps - st.steps) st
    by_cases hq : (runEpisode tr cfg g st (cfg.numSteps - st.steps)).2 = true
    · simp only [runEpisodes, hq, if_true]
      omega
    · by_cases hs :
        (runEpisode tr cfg g st (cfg.numSteps - st.steps)).1.steps = cfg.numSteps
      · simp only [runEpisodes, hq, hs]
        simp only [Bool.false_eq_true, if_false, if_true]
        omega
      · have h2 := ih (runEpisode tr cfg g st (cfg.numSteps - st.steps)).1
        simp only [runEpisodes, hq, hs, if_false, Bool.false_eq_true]
        omega

theorem runEpisodes_steps_le {P : Type} (tr : ℕ → ℚ × Bool) (cfg : Cfg)
    (g : P → P) (k : ℕ) : ∀ st : RunState P, st.steps ≤ cfg.numSteps →
    (runEpisodes tr cfg g st k).steps ≤ cfg.numSteps := by
  induction k with
  | zero => intro st h; simpa [runEpisodes] using h
  | succ n ih =>
    intro st h
    have h1 := runEpisode_steps_le tr cfg g (cfg.numSteps - st.steps) st
    have h2 : (runEpisode tr cfg g st (cfg.numSteps - st.steps)).1.steps ≤
        cfg.numSteps := by omega
    by_cases hq : (runEpisode tr cfg g st (cfg.numSteps - st.steps)).2 = true
    · simpa [runEpisodes, hq] using h2
    · by_cases hs :
        (runEpisode tr cfg g st (cfg.numSteps - st.steps)).1.steps = cfg.numSteps
      · simp only [runEpisodes, hq, hs]
        simpa [Bool.false_eq_true] using h2
      · have h3 := ih (runEpisode tr cfg g st (cfg.numSteps - st.steps)).1 h2
        simpa [runEpisodes, hq, hs] using h3

theorem epSumFrom_succ_left (tr : ℕ → ℚ × Bool) (a e : ℕ) (h : a < e) :
    epSumFrom tr a (e - a) = (tr (a + 1)).1 + epSumFrom tr (a + 1) (e - (a + 1)) := by
  have h1 : e - a = (e - (a + 1)) + 1 := by omega
  rw [h1]
  rfl

/-- When the inner loop ends with the episode-done flag, the episode ran
from step st.steps + 1 up to a terminal step e, every prior step of the
episode was non-terminal, exactly the episode's reward sum (on top of the
incoming accumulator) was appended to the record, and the accumulator was
reset. -/
theorem runEpisode_false_char {P : Type} (tr : ℕ → ℚ × Bool) (cfg : Cfg)
    (g : P → P) (fuel : ℕ) : ∀ st st' : RunState P,
    runEpisode tr cfg g st fuel = (st', false) →
    ∃ e, st.steps < e ∧ e ≤ st.steps + fuel ∧ (tr e).2 = true ∧
      (∀ i, st.steps < i → i < e → (tr i).2 = false) ∧
      st'.steps = e ∧
      st'.recordRewards = st.recordRewards ++
        [st.totalReward + epSumFrom tr st.steps (e - st.steps)] ∧
      st'.totalReward = 0 := by
  induction fuel with
  | zero =>
    intro st st' h
    simp only [runEpisode] at h
    cases h
  | succ n ih =>
    intro st st' h
    cases ho : (stepBody tr cfg g st).2 with
    | epDone =>
      have hd : (tr (st.steps + 1)).2 = true := (outcome_epDone_iff tr cfg g st).1 ho
      simp only [runEpisode, ho] at h
      cases h
      refine ⟨st.steps + 1, by omega, by omega, hd, by omega, stepBody_steps .., ?_, ?_⟩
      · rw [stepBody_record, hd]
        have hs : st.steps + 1 - st.steps = 1 := by omega
        rw [hs]
        simp [epSumFrom]
      · rw [stepBody_total, hd]
        simp
    | runDone =>
      simp only [runEpisode, ho] at h
      cases h
    | next =>
      obtain ⟨hd, _⟩ := (outcome_next_iff tr cfg g st).1 ho
      simp only [runEpisode, ho] at h
      obtain ⟨e, he1, he2, he3, he4, he5, he6, he7⟩ := ih (stepBody tr cfg g st).1 st' h
      rw [stepBody_steps] at he1 he2 he4
      rw [stepBody_record, hd] at he6
      simp only [Bool.false_eq_true, if_false, List.append_nil] at he6
      refine ⟨e, by omega, by omega, he3, ?_, he5, ?_, he7⟩
      · intro i hi1 hi2
        rcases Nat.lt_or_ge i (st.steps + 1) with hlt | hge
        · omega
        · rcases Nat.eq_or_lt_of_le hge with heq | hlt2
          · rw [heq] at hd
            exact hd
          · exact he4 i hlt2 hi2
      · rw [he6, stepBody_total, hd]
        simp only [Bool.false_eq_true, if_false]
        rw [stepBody_steps]
        rw [epSumFrom_succ_left tr st.steps e (by omega)]
        ring_nf

/-! ### Characterization of the per-row argmax -/

theorem argmaxVal_cons_cons (x y : ℚ) (ys : List ℚ) :
    argmaxVal (x :: y :: ys) =
      if x < (argmaxVal (y :: ys)).1 then
        ((argmaxVal (y :: ys)).1, (argmaxVal (y :: ys)).2 + 1)
      else (x, 0) := rfl

theorem argmaxVal_spec : ∀ (xs : List ℚ) (x : ℚ),
    (argmaxVal (x :: xs)).2 < (x :: xs).length ∧
    (x :: xs).getD (argmaxVal (x :: xs)).2 0 = (argmaxVal (x :: xs)).1 ∧
    (∀ j, j < (x :: xs).length → (x :: xs).getD j 0 ≤ (argmaxVal (x :: xs)).1) ∧
    (∀ j, j < (argmaxVal (x :: xs)).2 → (x :: xs).getD j 0 < (argmaxVal (x :: xs)).1) := by
  intro xs
  induction xs with
  | nil =>
    intro x
    refine ⟨by simp [argmaxVal], by simp [argmaxVal], ?_, ?_⟩
    · intro j hj
      simp only [List.length_singleton] at hj
      have hj0 : j = 0 := by omega
      subst hj0
      simp [argmaxVal]
    · intro j hj
      simp [argmaxVal] at hj
  | cons y ys ih =>
    intro x
    obtain ⟨ih1, ih2, ih3, ih4⟩ := ih y
    by_cases hx : x < (argmaxVal (y :: ys)).1
    · rw [argmaxVal_cons_cons, if_pos hx]
      refine ⟨?_, ?_, ?_, ?_⟩
      · simpa using ih1
      · simpa using ih2
      · intro j hj
        cases j with
        | zero => simpa using le_of_lt hx
        | succ k =>
          simp only [List.getD_cons_succ]
          exact ih3 k (by simpa using hj)
      · intro j hj
        cases j with
        | zero => simpa using hx
        | succ k =>
          simp only [List.getD_cons_succ]
          exact ih4 k (by simpa using hj)
    · rw [argmaxVal_cons_cons, if_neg hx]
      refine ⟨by simp, by simp, ?_, ?_⟩
      · intro j hj
        cases j with
        | zero => simp
        | succ k =>
          simp only [List.getD_cons_succ]
          exact le_trans (ih3 k (by simpa using hj)) (not_lt.mp hx)
      · intro j hj
        simp at hj

theorem argmaxRow_lt_length (l : List ℚ) (h : l ≠ []) : argmaxRow l < l.length := by
  cases l with
  | nil => exact absurd rfl h
  | cons x xs => exact (argmaxVal_spec xs x).1

theorem argmaxRow_getD (l : List ℚ) : ∀ j, j < l.length →
    l.getD j 0 ≤ l.getD (argmaxRow l) 0 := by
  cases l with
  | nil => intro j hj; simp at hj
  | cons x xs =>
    intro j hj
    obtain ⟨_, h2, h3, _⟩ := argmaxVal_spec xs x
    rw [argmaxRow, h2]
    exact h3 j hj

theorem argmaxRow_first (l : List ℚ) : ∀ j, j < argmaxRow l →
    l.getD j 0 < l.getD (argmaxRow l) 0 := by
  cases l with
  | nil => intro j hj; simp [argmaxRow, argmaxVal] at hj
  | cons x xs =>
    intro j hj
    obtain ⟨_, h2, _, h4⟩ := argmaxVal_spec xs x
    rw [argmaxRow, h2]
    exact h4 j hj

/-! ### Concrete fixtures used in counterexamples and witnesses -/

/-- Target-network values for the two states of the C1 batch. -/
def tnetC1 : ℕ → List ℚ := fun s => if s = 0 then [1, 2] else [3, 4]

/-- A batch of two transitions with distinct actions 0 and 1. -/
def batchC1 : List (Transition ℕ) := [⟨0, 0, 1, 0, false⟩, ⟨1, 1, 2, 1, false⟩]

/-- Primary-network values for the C2 batch: best next action is 1 for
next state 0 and 0 for next state 1. -/
def pnetC2 : ℕ → List ℚ := fun s => if s = 0 then [0, 1] else [1, 0]

/-- Target-network values for the C2 batch: the target's own argmax is 1
for both next states, so primary and target disagree on next state 1. -/
def tnetC2 : ℕ → List ℚ := fun s => if s = 0 then [10, 20] else [30, 40]

/-- A batch of two transitions with rewards 1 and 2 and next states 0, 1. -/
def batchC2 : List (Transition ℕ) := [⟨0, 0, 1, 0, false⟩, ⟨1, 1, 2, 1, false⟩]

theorem getD_pair_zero (a b d : ℚ) : List.getD [a, b] 0 d = a := rfl

theorem getD_pair_one (a b d : ℚ) : List.getD [a, b] 1 d = b := rfl

theorem getElem_pair_zero (a b : ℚ) : ([a, b] : List ℚ)[0] = a := rfl

theorem getElem_pair_one (a b : ℚ) : ([a, b] : List ℚ)[1] = b := rfl

/-! ### Claim theorems -/

/-- C1: the claim states that the current value estimate is a length-B
vector holding, for each sample i, the target estimator's value for
states[i] at the actually taken action actions[i].  The code instead
computes target_network(batch_states)[:, batch_actions], a B x B matrix:
on a 2-transition batch with actions [0, 1] it yields the full 2 x 2 value
matrix [[1, 2], [3, 4]] (two scalars per sample), while the claimed
per-sample selection is the length-2 vector [1, 4]. -/
theorem c1_taken_action_selection_is_square_matrix :
    Q_t_values tnetC1 batchC1 = [[1, 2], [3, 4]] ∧
    (Q_t_values tnetC1 batchC1).map List.length = [2, 2] ∧
    gatherOwnAction tnetC1 batchC1 = [1, 4] := by
  refine ⟨?_, ?_, ?_⟩ <;>
    norm_num [Q_t_values, colIndex, gatherOwnAction, tnetC1, batchC1]

/-- C2: the claim states that the bootstrap target is the length-B vector
y[i] = rewards[i] + discount * Q_target(next_states[i])[best_action[i]]
with best_action chosen by the primary network.  On a batch where primary
([1, 0]) and target ([1, 1]) disagree on the best next action, the code
computes a 2 x 2 matrix [[11, 7], [21, 17]] (broadcasting the rewards over
the fancy-indexed target values), while the claimed per-sample target is
the length-2 vector [11, 17]. -/
theorem c2_bootstrap_target_is_square_matrix :
    argmaxAxis1 ((batchC2.map Transition.nextState).map pnetC2) = [1, 0] ∧
    argmaxAxis1 ((batchC2.map Transition.nextState).map tnetC2) = [1, 1] ∧
    expected_Q_values (1 / 2) pnetC2 tnetC2 batchC2 = [[11, 7], [21, 17]] ∧
    (expected_Q_values (1 / 2) pnetC2 tnetC2 batchC2).map List.length = [2, 2] ∧
    doubleQTarget (1 / 2) pnetC2 tnetC2 batchC2 = [11, 17] := by
  refine ⟨?_, ?_, ?_, ?_, ?_⟩ <;>
    norm_num [expected_Q_values, next_Q_t_values_max, doubleQTarget, colIndex,
      argmaxAxis1, argmaxRow, argmaxVal, getD_pair_zero, getD_pair_one,
      getElem_pair_zero, getElem_pair_one, pnetC2, tnetC2, batchC2]

/-- C3: the claim states the exploration rate is the clamped interpolation
eps_start + (eps_end - eps_start) * min(steps / eps_decay, 1), staying at
eps_end after eps_decay steps.  The code computes the unclamped line: at
the claim's own sample point (eps_start 1, eps_end 0.1, decay 1000,
steps 5000) it yields -3.5 instead of the claimed 0.1; the other three
sample points agree. -/
theorem c3_epsilon_decay_unclamped :
    epsilonCode 1 (1 / 10) 1000 0 = 1 ∧
    epsilonCode 1 (1 / 10) 1000 500 = 11 / 20 ∧
    epsilonCode 1 (1 / 10) 1000 1000 = 1 / 10 ∧
    epsilonCode 1 (1 / 10) 1000 5000 = -(7 / 2) ∧
    epsilonSpec 1 (1 / 10) 1000 5000 = 1 / 10 ∧
    epsilonCode 1 (1 / 10) 1000 5000 ≠ epsilonSpec 1 (1 / 10) 1000 5000 := by
  refine ⟨?_, ?_, ?_, ?_, ?_, ?_⟩ <;> norm_num [epsilonCode, epsilonSpec]

/-- C6: when fewer transitions are stored than the configured batch size,
batch_train is a complete no-op: it returns immediately with the agent
state unchanged and no loss computed. -/
theorem c6_insufficient_memory_noop {P S : Type} (net : P → S → List ℚ)
    (discount : ℚ) (g : P → ℚ → P) (sample : List (Transition S))
    (ag : AgentSt P S) (h : ag.memory.length < ag.batchSize) :
    batchTrain net discount g sample ag = (ag, none) := by
  simp [batchTrain, h]

/-- C6 witness: an agent with an empty memory and batch size 32. -/
theorem c6_insufficient_memory_noop_witness :
    (AgentSt.mk ([] : List (Transition ℕ)) 32 (0 : ℕ) 0).memory.length <
      (AgentSt.mk ([] : List (Transition ℕ)) 32 (0 : ℕ) 0).batchSize ∧
    batchTrain (fun _ _ => ([] : List ℚ)) (99 / 100) (fun p _ => p) []
      (AgentSt.mk ([] : List (Transition ℕ)) 32 (0 : ℕ) 0) =
      (AgentSt.mk ([] : List (Transition ℕ)) 32 (0 : ℕ) 0, none) :=
  ⟨by decide,
    c6_insufficient_memory_noop (fun _ _ => ([] : List ℚ)) (99 / 100)
      (fun p _ => p) [] (AgentSt.mk ([] : List (Transition ℕ)) 32 (0 : ℕ) 0)
      (by decide)⟩

/-- C9: the constructor initializes the target network with a copy of the
primary network's parameters (overwriting the target's own fresh
initialization), so both estimators produce identical outputs on every
input, and the target is put in inference-only (eval) mode. -/
theorem c9_target_initialized_from_primary {P S : Type} (net : P → S → List ℚ)
    (pInit tInit : P) :
    (mkEstimatorPair pInit tInit).target = (mkEstimatorPair pInit tInit).primary ∧
    (∀ s : S, net (mkEstimatorPair pInit tInit).target s =
      net (mkEstimatorPair pInit tInit).primary s) ∧
    (mkEstimatorPair pInit tInit).targetEvalMode = true := by
  exact ⟨rfl, fun s => rfl, rfl⟩

/-- Trace A: reward 1 at step 1 (non-terminal), reward 2 at step 2
(terminal), dead afterwards. -/
def trA : ℕ → ℚ × Bool :=
  fun s => if s = 1 then (1, false) else if s = 2 then (2, true) else (0, false)

/-- Config A: target update every 2 steps, 10 steps, 1 episode. -/
def cfgA : Cfg := { targetUpdate := 2, numSteps := 10, maxEpisodes := 1 }

/-- Trace B: terminal at step 2, reward 0 throughout. -/
def trB : ℕ → ℚ × Bool := fun s => if s = 2 then (0, true) else (0, false)

/-- Config B: target update every step, 10 steps, 1 episode. -/
def cfgB : Cfg := { targetUpdate := 1, numSteps := 10, maxEpisodes := 1 }

/-- C4: during training, a transition is stored into the replay memory if
and only if the step is non-terminal (the stored record carrying the
step's reward and its terminal flag, necessarily false), and consequently
no stored transition of a whole run ever has terminal = true. -/
theorem c4_store_iff_nonterminal {P : Type} (tr : ℕ → ℚ × Bool) (cfg : Cfg)
    (g : P → P) (st : RunState P) (p0 : P) :
    (stepBody tr cfg g st).1.stored = st.stored ++
      (if (tr (st.steps + 1)).2 = false then
        [(st.steps + 1, (tr (st.steps + 1)).1, (tr (st.steps + 1)).2)] else []) ∧
    ∀ e ∈ (trainRun tr cfg g p0).stored, e.2.2 = false := by
  refine ⟨stepBody_stored tr cfg g st, ?_⟩
  obtain ⟨t, ht, hall⟩ := runEpisodes_stored_affix tr cfg g cfg.maxEpisodes (initState p0)
  intro e he
  rw [trainRun, ht] at he
  simp only [initState, List.nil_append] at he
  exact hall e he

/-- C4 witness: on trace A the single non-terminal step 1 is stored with
terminal flag false. -/
theorem c4_store_iff_nonterminal_witness :
    ((1 : ℕ), (1 : ℚ), false) ∈ (trainRun trA cfgA id (0 : ℕ)).stored ∧
    ((1 : ℕ), (1 : ℚ), false).2.2 = false := by
  have hm : ((1 : ℕ), (1 : ℚ), false) ∈ (trainRun trA cfgA id (0 : ℕ)).stored := by
    norm_num [trainRun, runEpisodes, runEpisode, stepBody, initState, trA, cfgA]
  exact ⟨hm, (c4_store_iff_nonterminal trA cfgA id (initState 0) 0).2 _ hm⟩

/-- C5 counterexample: on trace A, step 2 is a multiple of target_update
and is the episode's terminal step; the code breaks out of the episode
before the synchronization check, so no sync happens at step 2 and the
target parameters still differ from the primary parameters when the run
returns, contradicting the claim's "including when such a step coincides
with an episode's terminal step". -/
theorem c5_terminal_sync_counterexample :
    (trainRun trA cfgA Nat.succ 0).steps = 2 ∧
    2 % cfgA.targetUpdate = 0 ∧
    (trA 2).2 = true ∧
    (trainRun trA cfgA Nat.succ 0).syncSteps = [] ∧
    (trainRun trA cfgA Nat.succ 0).targetP ≠ (trainRun trA cfgA Nat.succ 0).primaryP := by
  refine ⟨?_, ?_, ?_, ?_, ?_⟩ <;>
    norm_num [trainRun, runEpisodes, runEpisode, stepBody, initState, trA, cfgA]

/-- C5 (amended): at every global step that is a multiple of target_update
(checked after the per-step state transition), the target parameters are
overwritten with a copy of the primary parameters, except when that step
is an episode's terminal step: the episode break happens first, so no
synchronization occurs on terminal steps, and every recorded sync step of
a whole run is a non-terminal multiple of target_update. -/
theorem c5_sync_nonterminal_only {P : Type} (tr : ℕ → ℚ × Bool) (cfg : Cfg)
    (g : P → P) (st : RunState P) (p0 : P) :
    (stepBody tr cfg g st).1.syncSteps = st.syncSteps ++
      (if (tr (st.steps + 1)).2 = false ∧ (st.steps + 1) % cfg.targetUpdate = 0
        then [st.steps + 1] else []) ∧
    (stepBody tr cfg g st).1.targetP =
      (if (tr (st.steps + 1)).2 = false ∧ (st.steps + 1) % cfg.targetUpdate = 0
        then st.primaryP else st.targetP) ∧
    ∀ s ∈ (trainRun tr cfg g p0).syncSteps,
      s % cfg.targetUpdate = 0 ∧ (tr s).2 = false := by
  refine ⟨stepBody_sync tr cfg g st, stepBody_targetP tr cfg g st, ?_⟩
  obtain ⟨t, ht, hall⟩ := runEpisodes_sync_affix tr cfg g cfg.maxEpisodes (initState p0)
  intro s hs
  rw [trainRun, ht] at hs
  simp only [initState, List.nil_append] at hs
  exact hall s hs

/-- C5 witness: on trace B with target_update 1, step 1 is synced and is
indeed a non-terminal multiple of target_update. -/
theorem c5_sync_nonterminal_only_witness :
    (1 : ℕ) ∈ (trainRun trB cfgB id (0 : ℕ)).syncSteps ∧
    (1 % cfgB.targetUpdate = 0 ∧ (trB 1).2 = false) := by
  have hm : (1 : ℕ) ∈ (trainRun trB cfgB id (0 : ℕ)).syncSteps := by
    norm_num [trainRun, runEpisodes, runEpisode, stepBody, initState, trB, cfgB]
  exact ⟨hm, (c5_sync_nonterminal_only trB cfgB id (initState 0) 0).2.2 1 hm⟩

/-- C7: action selection compares the single pseudo-random draw r with the
current epsilon; below epsilon it returns the externally drawn uniform
action (within range), otherwise it returns the primary network's argmax
for the state, which is a maximizing index and breaks ties by the lowest
index. -/
theorem c7_select_action_policy {S : Type} (epsStart epsEnd epsDecay : ℚ)
    (pnet : S → List ℚ) (r : ℚ) (randomAct : ℕ) (steps : ℕ) (state : S)
    (numActions : ℕ) (hra : randomAct < numActions)
    (hlen : (pnet state).length = numActions) :
    (r < epsilonCode epsStart epsEnd epsDecay steps →
      select_action epsStart epsEnd epsDecay pnet r randomAct steps state = randomAct ∧
      randomAct < numActions) ∧
    (¬ r < epsilonCode epsStart epsEnd epsDecay steps →
      select_action epsStart epsEnd epsDecay pnet r randomAct steps state =
        argmaxRow (pnet state) ∧
      argmaxRow (pnet state) < numActions ∧
      (∀ j, j < numActions →
        (pnet state).getD j 0 ≤ (pnet state).getD (argmaxRow (pnet state)) 0) ∧
      (∀ j, j < argmaxRow (pnet state) →
        (pnet state).getD j 0 < (pnet state).getD (argmaxRow (pnet state)) 0)) := by
  constructor
  · intro h
    exact ⟨by simp [select_action, h], hra⟩
  · intro h
    have hne : pnet state ≠ [] := by
      intro hnil
      rw [hnil] at hlen
      simp at hlen
      omega
    refine ⟨by simp [select_action, h], ?_, ?_, ?_⟩
    · have := argmaxRow_lt_length (pnet state) hne
      omega
    · intro j hj
      exact argmaxRow_getD (pnet state) j (by omega)
    · intro j hj
      exact argmaxRow_first (pnet state) j hj

/-- C7 witness: with epsilon 1 at step 0 and draw 1/2, exploration returns
the uniform action 1; with draw 2 (not below epsilon), exploitation
returns the argmax index 1 of the row [1, 2]. -/
theorem c7_select_action_policy_witness :
    ((1 : ℕ) < 2 ∧ ((fun _ : ℕ => [(1 : ℚ), 2]) 0).length = 2) ∧
    select_action 1 (1 / 10) 1000 (fun _ : ℕ => [(1 : ℚ), 2]) (1 / 2) 1 0 0 = 1 ∧
    select_action 1 (1 / 10) 1000 (fun _ : ℕ => [(1 : ℚ), 2]) 2 1 0 0 =
      argmaxRow [(1 : ℚ), 2] := by
  refine ⟨⟨by norm_num, by norm_num⟩, ?_, ?_⟩
  · exact ((c7_select_action_policy 1 (1 / 10) 1000 (fun _ : ℕ => [(1 : ℚ), 2])
      (1 / 2) 1 0 0 2 (by norm_num) (by norm_num)).1
      (by norm_num [epsilonCode])).1
  · exact ((c7_select_action_policy 1 (1 / 10) 1000 (fun _ : ℕ => [(1 : ℚ), 2])
      2 1 0 0 2 (by norm_num) (by norm_num)).2
      (by norm_num [epsilonCode])).1

/-- The state reached after running trace A's single episode from the
initial state: 2 steps, reward 3 recorded, accumulator reset, step 1
stored, batch_train called at the terminal step 2. -/
def stA : RunState ℕ :=
  { steps := 2, totalReward := 0, recordRewards := [3], stored := [(1, 1, false)]
    syncSteps := [], batchTrainSteps := [2], primaryP := 0, targetP := 0 }

/-- Trace C: never terminal, reward 1 every step. -/
def trC : ℕ → ℚ × Bool := fun _ => (1, false)

/-- Config C: target update every 3 steps, run ends at 2 steps, 5 episodes. -/
def cfgC : Cfg := { targetUpdate := 3, numSteps := 2, maxEpisodes := 5 }

/-- The state reached when trace C's run is cut off by num_steps = 2
mid-episode: both steps stored, nothing recorded, no batch_train call. -/
def stC : RunState ℕ :=
  { steps := 2, totalReward := 2, recordRewards := []
    stored := [(1, 1, false), (2, 1, false)], syncSteps := []
    batchTrainSteps := [], primaryP := 0, targetP := 0 }

/-- C8: whenever an episode ends with a terminal step e, the run appends
to the record exactly one entry, the accumulated reward of the episode's
steps including the terminal step's reward (on top of the incoming
accumulator), and resets the accumulator to zero; the whole run records
at most max_episodes episodes and never exceeds num_steps global steps. -/
theorem c8_episode_reward_recording {P : Type} (tr : ℕ → ℚ × Bool) (cfg : Cfg)
    (g : P → P) (p0 : P) (st st' : RunState P) (fuel : ℕ)
    (h : runEpisode tr cfg g st fuel = (st', false)) :
    (∃ e, st.steps < e ∧ e ≤ st.steps + fuel ∧ (tr e).2 = true ∧
      (∀ i, st.steps < i → i < e → (tr i).2 = false) ∧
      st'.steps = e ∧
      st'.recordRewards = st.recordRewards ++
        [st.totalReward + epSumFrom tr st.steps (e - st.steps)] ∧
      st'.totalReward = 0) ∧
    (trainRun tr cfg g p0).recordRewards.length ≤ cfg.maxEpisodes ∧
    (trainRun tr cfg g p0).steps ≤ cfg.numSteps := by
  refine ⟨runEpisode_false_char tr cfg g fuel st st' h, ?_, ?_⟩
  · have := runEpisodes_record_len tr cfg g cfg.maxEpisodes (initState p0)
    simpa [trainRun, initState] using this
  · exact runEpisodes_steps_le tr cfg g cfg.maxEpisodes (initState p0)
      (by simp [initState])

/-- C8 witness: trace A's episode terminates at step 2 with total reward
3 = 1 + 2 recorded, and the run stays within the configured bounds. -/
theorem c8_episode_reward_recording_witness :
    runEpisode trA cfgA id (initState (0 : ℕ)) 10 = (stA, false) ∧
    ((∃ e, (initState (0 : ℕ)).steps < e ∧ e ≤ (initState (0 : ℕ)).steps + 10 ∧
      (trA e).2 = true ∧
      (∀ i, (initState (0 : ℕ)).steps < i → i < e → (trA i).2 = false) ∧
      stA.steps = e ∧
      stA.recordRewards = (initState (0 : ℕ)).recordRewards ++
        [(initState (0 : ℕ)).totalReward +
          epSumFrom trA (initState (0 : ℕ)).steps (e - (initState (0 : ℕ)).steps)] ∧
      stA.totalReward = 0) ∧
    (trainRun trA cfgA id (0 : ℕ)).recordRewards.length ≤ cfgA.maxEpisodes ∧
    (trainRun trA cfgA id (0 : ℕ)).steps ≤ cfgA.numSteps) := by
  have h : runEpisode trA cfgA id (initState (0 : ℕ)) 10 = (stA, false) := by
    norm_num [runEpisode, stepBody, initState, trA, cfgA, stA]
  exact ⟨h, c8_episode_reward_recording trA cfgA id 0 (initState 0) stA 10 h⟩

/-- C10: when the run is cut off by the global step limit mid-episode (no
terminal signal), the interrupted episode contributes nothing: the reward
record and the batch_train call log are exactly as they were when the
episode began; over a whole run the record has one entry per batch_train
call and every batch_train call happens at a terminal step, so the
returned list's length equals the number of terminal-ended episodes. -/
theorem c10_midstream_truncation {P : Type} (tr : ℕ → ℚ × Bool) (cfg : Cfg)
    (g : P → P) (p0 : P) (st st' : RunState P) (fuel : ℕ)
    (h : runEpisode tr cfg g st fuel = (st', true)) :
    st'.recordRewards = st.recordRewards ∧
    st'.batchTrainSteps = st.batchTrainSteps ∧
    (trainRun tr cfg g p0).recordRewards.length =
      (trainRun tr cfg g p0).batchTrainSteps.length ∧
    ∀ s ∈ (trainRun tr cfg g p0).batchTrainSteps, (tr s).2 = true := by
  obtain ⟨h1, h2⟩ := runEpisode_true_frozen tr cfg g fuel st st' h
  obtain ⟨t1, t2, g1, g2, glen, gall⟩ :=
    runEpisodes_rec_bt tr cfg g cfg.maxEpisodes (initState p0)
  refine ⟨h1, h2, ?_, ?_⟩
  · rw [trainRun, g1, g2]
    simp [initState, glen]
  · intro s hs
    rw [trainRun, g2] at hs
    simp only [initState, List.nil_append] at hs
    exact gall s hs

/-- C10 witness: trace C's run stops at num_steps = 2 mid-episode with an
empty reward record and no batch_train call. -/
theorem c10_midstream_truncation_witness :
    runEpisode trC cfgC id (initState (0 : ℕ)) 2 = (stC, true) ∧
    (stC.recordRewards = (initState (0 : ℕ)).recordRewards ∧
    stC.batchTrainSteps = (initState (0 : ℕ)).batchTrainSteps ∧
    (trainRun trC cfgC id (0 : ℕ)).recordRewards.length =
      (trainRun trC cfgC id (0 : ℕ)).batchTrainSteps.length ∧
    ∀ s ∈ (trainRun trC cfgC id (0 : ℕ)).batchTrainSteps, (trC s).2 = true) := by
  have h : runEpisode trC cfgC id (initState (0 : ℕ)) 2 = (stC, true) := by
    norm_num [runEpisode, stepBody, initState, trC, cfgC, stC]
  exact ⟨h, c10_midstream_truncation trC cfgC id 0 (initState 0) stC 2 h⟩

end DoubleDQN
